import Mathlib

/-!
Verification development for the humanwrite repository: a shallow embedding
of its ABI parameter unit-inference engine (src/lib/ai-analysis.ts), its
display/raw unit conversions (src/components/UnitInput.tsx), its proxy
detector (src/lib/proxy.ts) and its explorer resolver and function
classifier (src/lib/explorers.ts), together with theorems about them.

Strings are modelled as lists of characters (a theorem about a String
literal goes through String.data); JavaScript string primitives
(toLowerCase, toUpperCase, startsWith, endsWith, includes, indexOf,
charAt with undefined out of range) are reproduced for the ASCII range,
which covers every identifier and literal the code manipulates.
-/

namespace HumanWrite

/-- JS String.prototype.toUpperCase on one ASCII character. -/
def jsToUpperChar (c : Char) : Char :=
  if 97 ≤ c.toNat ∧ c.toNat ≤ 122 then Char.ofNat (c.toNat - 32) else c

/-- JS String.prototype.toLowerCase on one ASCII character. -/
def jsToLowerChar (c : Char) : Char :=
  if 65 ≤ c.toNat ∧ c.toNat ≤ 90 then Char.ofNat (c.toNat + 32) else c

/-- JS toLowerCase over a whole string. -/
def jsLower (s : List Char) : List Char := s.map jsToLowerChar

/-- An ASCII letter: what the character class A-Z matches under the
case-insensitive regex flag. -/
def isAsciiLetter (c : Char) : Bool :=
  (65 ≤ c.toNat && c.toNat ≤ 90) || (97 ≤ c.toNat && c.toNat ≤ 122)

/-- JS string indexing s[i]: undefined (none) when out of range. -/
def jsCharAt (s : List Char) (i : Nat) : Option Char := s.get? i

/-- JS string indexing at a possibly negative index (undefined below 0). -/
def jsCharAtI (s : List Char) (i : Int) : Option Char :=
  if i < 0 then none else s.get? i.toNat

/-- The test c === c.toUpperCase() of the source: true for every character
that is not a lowercase ASCII letter (digits and underscores included). -/
def jsEqUpper (c : Char) : Bool := c == jsToUpperChar c

/-- Index of the first occurrence of needle as a contiguous substring of
hay (JS String.prototype.indexOf), none when absent. -/
def firstInfixIdx (needle : List Char) : List Char → Option Nat
  | [] => if needle.isEmpty then some 0 else none
  | c :: t =>
      if needle.isPrefixOf (c :: t) then some 0
      else (firstInfixIdx needle t).map (· + 1)

/-- JS String.prototype.includes: needle occurs contiguously in hay. -/
def jsIncludes (needle hay : List Char) : Bool := (firstInfixIdx needle hay).isSome

/-!
Pattern tables of src/lib/ai-analysis.ts, lines 206-231.
-/

/-- Parameter names that are never unit-converted (checked first). -/
def RAW_ONLY_PATTERNS : List (List Char) :=
  ["decimals", "precision", "scale", "nonce", "id", "index",
   "length", "count", "size", "iteration", "round", "epoch",
   "version", "type", "status", "state", "mode", "flag"].map String.data

/-- Amount/value parameter-name fragments. -/
def AMOUNT_PATTERNS : List (List Char) :=
  ["amount", "value", "qty", "quantity", "wad", "shares", "assets",
   "tokens", "balance", "supply"].map String.data

/-- Fee/rate parameter-name fragments. -/
def FEE_PATTERNS : List (List Char) :=
  ["feebps", "bps", "basispoints", "feerate",
   "interestrate", "apr", "apy"].map String.data

/-- Timestamp parameter-name fragments. -/
def TIMESTAMP_PATTERNS : List (List Char) :=
  ["deadline", "timestamp", "unlocktime", "locktime",
   "starttime", "endtime", "expiry", "expires", "maturity",
   "vestingend", "vestingstart"].map String.data

/-- The camelCase regex test of matchesPattern (ai-analysis.ts line 264):
the pattern somewhere inside the name, preceded by a character the class
A-Z matches under the i flag (hence any ASCII letter), followed by such a
character or the end of the string, the pattern itself compared
case-insensitively. -/
def camelTest (name pattern : List Char) : Bool :=
  (List.range name.length).any fun i =>
    match jsCharAt name i with
    | none => false
    | some c =>
        isAsciiLetter c &&
        jsLower ((name.drop (i + 1)).take pattern.length) == pattern &&
        (match jsCharAt name (i + 1 + pattern.length) with
         | none => true
         | some c2 => isAsciiLetter c2)

/-- One pattern of matchesPattern (src/lib/ai-analysis.ts, lines 235-269):
exact match on the lowercased name; else prefix with a word-boundary check
on the following original character (returning that check's result);
else suffix with the same check on the preceding character; else the
pattern between underscores; else after an underscore with a check on the
following character; else the camelCase regex test. -/
def matchesOne (name pattern : List Char) : Bool :=
  let nameLower := jsLower name
  if nameLower == pattern then true
  else if pattern.isPrefixOf nameLower then
    match jsCharAt name pattern.length with
    | none => true
    | some c => jsEqUpper c || c == '_'
  else if pattern.isSuffixOf nameLower then
    match jsCharAtI name ((name.length : Int) - pattern.length - 1) with
    | none => true
    | some c => jsEqUpper c || c == '_'
  else if jsIncludes ('_' :: pattern ++ ['_']) nameLower then true
  else if jsIncludes ('_' :: pattern) nameLower then
    match firstInfixIdx ('_' :: pattern) nameLower with
    | none => true
    | some i =>
        match jsCharAt name (i + pattern.length + 1) with
        | none => true
        | some c => jsEqUpper c
  else camelTest name pattern

/-- matchesPattern of src/lib/ai-analysis.ts: some pattern of the list
matches the name. -/
def matchesPattern (name : List Char) (patterns : List (List Char)) : Bool :=
  patterns.any (matchesOne name)

/-- The unit categories of src/lib/ai-analysis.ts (UnitType). -/
inductive UnitType where
  | raw | wei | gwei | ether | token | bps | percent | timestamp
  | bytes32Text | none
deriving DecidableEq, Repr

/-- One ABI parameter: optional name and Solidity type string. -/
structure AbiParameter where
  name : Option String
  type : String
deriving DecidableEq, Repr

/-- inferUnitType of src/lib/ai-analysis.ts, lines 272-313. -/
def inferUnitType (p : AbiParameter) : UnitType :=
  let nameStr := (p.name.getD "").data
  let name := jsLower nameStr
  let type := p.type.data
  if type == "address".data then UnitType.none
  else if type == "bytes32".data then UnitType.bytes32Text
  else if List.isPrefixOf "uint".data type || List.isPrefixOf "int".data type then
    if RAW_ONLY_PATTERNS.any (fun pt => jsIncludes pt name) then UnitType.raw
    else if matchesPattern nameStr TIMESTAMP_PATTERNS then UnitType.timestamp
    else if matchesPattern nameStr FEE_PATTERNS then UnitType.bps
    else if matchesPattern nameStr AMOUNT_PATTERNS then UnitType.token
    else UnitType.raw
  else UnitType.none


/-- Lowercased parameter name the way inferUnitType computes it. -/
def lowerName (p : AbiParameter) : List Char := jsLower (p.name.getD "").data

/-- The numeric-type test of inferUnitType: the type string starts with
uint or with int. -/
def isNumericAbiType (t : String) : Bool :=
  List.isPrefixOf "uint".data t.data || List.isPrefixOf "int".data t.data

/-- The never-convert test of inferUnitType: some raw-only fragment occurs
anywhere in the lowercased name. -/
def hasRawFragment (p : AbiParameter) : Bool :=
  RAW_ONLY_PATTERNS.any (fun pt => jsIncludes pt (lowerName p))

/-- Original (not lowercased) name string handed to matchesPattern. -/
def origName (p : AbiParameter) : List Char := (p.name.getD "").data

/-- An ASCII uppercase letter, as the word-boundary rule of the spec
reads "uppercase". -/
def specUpperOrUnderscore (c : Char) : Bool :=
  (65 ≤ c.toNat && c.toNat ≤ 90) || c == '_'

/-- The fragment with its first letter capitalized, as it would appear as
a capitalized inner word of a camelCase identifier. -/
def capitalizeFrag (pattern : List Char) : List Char :=
  match pattern with
  | [] => []
  | c :: t => jsToUpperChar c :: t

/-- Modelled from the spec: the word-boundary matching rule, stated as
five conditions. A fragment matches if the identifier equals it exactly;
or the identifier starts with it and the following character (if any) is
uppercase or an underscore; or the identifier ends with it and the
preceding character (if any) is uppercase or an underscore; or the
fragment appears with underscore delimiters; or the fragment appears as a
capitalized inner word (camelCase boundary). -/
def specWordBoundaryMatch (name pattern : List Char) : Bool :=
  let nameLower := jsLower name
  (nameLower == pattern) ||
  (pattern.isPrefixOf nameLower &&
    (match jsCharAt name pattern.length with
     | none => true
     | some c => specUpperOrUnderscore c)) ||
  (pattern.isSuffixOf nameLower &&
    (match jsCharAtI name ((name.length : Int) - pattern.length - 1) with
     | none => true
     | some c => specUpperOrUnderscore c)) ||
  jsIncludes ('_' :: pattern ++ ['_']) nameLower ||
  ((List.range name.length).any fun i =>
    decide (0 < i) &&
    (name.drop i).take pattern.length == capitalizeFrag pattern &&
    (match jsCharAt name (i + pattern.length) with
     | none => true
     | some c => specUpperOrUnderscore c))


/-- The boundary check on the character right after a prefix occurrence
(matchesPattern, lines 243-247). -/
def nextCharBoundary (name pattern : List Char) : Bool :=
  match jsCharAt name pattern.length with
  | none => true
  | some c => jsEqUpper c || c == '_'

/-- The boundary check on the character right before a suffix occurrence
(matchesPattern, lines 250-254). -/
def prevCharBoundary (name pattern : List Char) : Bool :=
  match jsCharAtI name ((name.length : Int) - pattern.length - 1) with
  | none => true
  | some c => jsEqUpper c || c == '_'

/-- The boundary check after an underscore-prefixed occurrence
(matchesPattern, lines 258-261). -/
def underscoreFollowBoundary (name pattern : List Char) : Bool :=
  match firstInfixIdx ('_' :: pattern) (jsLower name) with
  | none => true
  | some i =>
      match jsCharAt name (i + pattern.length + 1) with
      | none => true
      | some c => jsEqUpper c

/-- The matcher's observable behavior written as a flat guarded
disjunction: exact match; prefix occurrence whose following character
equals its own uppercase form or is an underscore (and when the prefix
test fires, its boundary verdict is final); failing that, the analogous
suffix rule; failing both, an occurrence between underscores; failing
that, an occurrence after an underscore with a follow-up character check;
failing all of these, the case-insensitive camel test, which accepts the
fragment anywhere between an ASCII letter and a letter-or-end position. -/
def amendedBoundaryMatch (name pattern : List Char) : Bool :=
  let nl := jsLower name
  (nl == pattern) ||
  (pattern.isPrefixOf nl && nextCharBoundary name pattern) ||
  (!pattern.isPrefixOf nl && pattern.isSuffixOf nl && prevCharBoundary name pattern) ||
  (!pattern.isPrefixOf nl && !pattern.isSuffixOf nl &&
    jsIncludes ('_' :: pattern ++ ['_']) nl) ||
  (!pattern.isPrefixOf nl && !pattern.isSuffixOf nl &&
    !jsIncludes ('_' :: pattern ++ ['_']) nl &&
    jsIncludes ('_' :: pattern) nl && underscoreFollowBoundary name pattern) ||
  (!pattern.isPrefixOf nl && !pattern.isSuffixOf nl &&
    !jsIncludes ('_' :: pattern ++ ['_']) nl &&
    !jsIncludes ('_' :: pattern) nl && camelTest name pattern)

/-- A numeric ABI type never hits the address or bytes32 branch. -/
theorem isNumericAbiType_ne_special (t : String) (h : isNumericAbiType t = true) :
    (t.data == "address".data) = false ∧ (t.data == "bytes32".data) = false := by
  constructor
  · cases hb : (t.data == "address".data) with
    | false => rfl
    | true =>
        have he : t.data = "address".data := eq_of_beq hb
        simp only [isNumericAbiType, he] at h
        exact absurd h (by decide)
  · cases hb : (t.data == "bytes32".data) with
    | false => rfl
    | true =>
        have he : t.data = "bytes32".data := eq_of_beq hb
        simp only [isNumericAbiType, he] at h
        exact absurd h (by decide)

/-- C1: the unit-inference function assigns exactly one category by the
priority order of the spec: type address gives none; type bytes32 gives
bytes32-as-text; for uint or int types, a never-convert fragment anywhere
in the lowercased name gives raw and overrides every later rule, else a
timestamp-fragment match gives unix-timestamp, else a fee-fragment match
gives basis-points, else an amount-fragment match gives token-decimal,
else raw; every other type gives none. -/
theorem inferUnitType_priority (p : AbiParameter) :
    (p.type = "address" → inferUnitType p = UnitType.none) ∧
    (p.type = "bytes32" → inferUnitType p = UnitType.bytes32Text) ∧
    (isNumericAbiType p.type = true → hasRawFragment p = true →
      inferUnitType p = UnitType.raw) ∧
    (isNumericAbiType p.type = true → hasRawFragment p = false →
      matchesPattern (origName p) TIMESTAMP_PATTERNS = true →
      inferUnitType p = UnitType.timestamp) ∧
    (isNumericAbiType p.type = true → hasRawFragment p = false →
      matchesPattern (origName p) TIMESTAMP_PATTERNS = false →
      matchesPattern (origName p) FEE_PATTERNS = true →
      inferUnitType p = UnitType.bps) ∧
    (isNumericAbiType p.type = true → hasRawFragment p = false →
      matchesPattern (origName p) TIMESTAMP_PATTERNS = false →
      matchesPattern (origName p) FEE_PATTERNS = false →
      matchesPattern (origName p) AMOUNT_PATTERNS = true →
      inferUnitType p = UnitType.token) ∧
    (isNumericAbiType p.type = true → hasRawFragment p = false →
      matchesPattern (origName p) TIMESTAMP_PATTERNS = false →
      matchesPattern (origName p) FEE_PATTERNS = false →
      matchesPattern (origName p) AMOUNT_PATTERNS = false →
      inferUnitType p = UnitType.raw) ∧
    (p.type ≠ "address" → p.type ≠ "bytes32" → isNumericAbiType p.type = false →
      inferUnitType p = UnitType.none) := by
  obtain ⟨nm, ty⟩ := p
  refine ⟨?_, ?_, ?_, ?_, ?_, ?_, ?_, ?_⟩
  · intro h; subst h; rfl
  · intro h; subst h; rfl
  · intro hnum hraw
    obtain ⟨hna, hnb⟩ := isNumericAbiType_ne_special ty hnum
    simp only [isNumericAbiType] at hnum
    simp only [hasRawFragment, lowerName] at hraw
    simp [inferUnitType, hna, hnb, hnum, hraw]
  · intro hnum hraw hts
    obtain ⟨hna, hnb⟩ := isNumericAbiType_ne_special ty hnum
    simp only [isNumericAbiType] at hnum
    simp only [hasRawFragment, lowerName] at hraw
    simp only [origName] at hts
    simp [inferUnitType, hna, hnb, hnum, hraw, hts]
  · intro hnum hraw hts hfee
    obtain ⟨hna, hnb⟩ := isNumericAbiType_ne_special ty hnum
    simp only [isNumericAbiType] at hnum
    simp only [hasRawFragment, lowerName] at hraw
    simp only [origName] at hts hfee
    simp [inferUnitType, hna, hnb, hnum, hraw, hts, hfee]
  · intro hnum hraw hts hfee ham
    obtain ⟨hna, hnb⟩ := isNumericAbiType_ne_special ty hnum
    simp only [isNumericAbiType] at hnum
    simp only [hasRawFragment, lowerName] at hraw
    simp only [origName] at hts hfee ham
    simp [inferUnitType, hna, hnb, hnum, hraw, hts, hfee, ham]
  · intro hnum hraw hts hfee ham
    obtain ⟨hna, hnb⟩ := isNumericAbiType_ne_special ty hnum
    simp only [isNumericAbiType] at hnum
    simp only [hasRawFragment, lowerName] at hraw
    simp only [origName] at hts hfee ham
    simp [inferUnitType, hna, hnb, hnum, hraw, hts, hfee, ham]
  · intro hado hbyt hnum
    have hna : (ty.data == "address".data) = false := by
      cases hb : (ty.data == "address".data) with
      | false => rfl
      | true => exact absurd (congrArg String.mk (eq_of_beq hb)) hado
    have hnb : (ty.data == "bytes32".data) = false := by
      cases hb : (ty.data == "bytes32".data) with
      | false => rfl
      | true => exact absurd (congrArg String.mk (eq_of_beq hb)) hbyt
    simp only [isNumericAbiType] at hnum
    simp [inferUnitType, hna, hnb, hnum]

/-- C1 witness: the theorem applied to a concrete uint256 parameter named
deadline, whose category is unix-timestamp. -/
theorem inferUnitType_priority_witness :
    inferUnitType ⟨some "deadline", "uint256"⟩ = UnitType.timestamp :=
  (inferUnitType_priority ⟨some "deadline", "uint256"⟩).2.2.2.1
    (by decide) (by decide) (by decide)

/-- C2 counterexample: the fee fragment apr matches the identifier
capricorn in the code (through the case-insensitive camel regex), yet
none of the five word-boundary conditions of the spec holds there, so the
claimed equivalence fails. -/
theorem matchesOne_capricorn_counterexample :
    matchesOne "capricorn".data "apr".data = true ∧
    specWordBoundaryMatch "capricorn".data "apr".data = false ∧
    "apr".data ∈ FEE_PATTERNS := by
  refine ⟨by decide, by decide, by decide⟩

/-- C2 amended: the matcher equals the flat guarded-disjunction
characterization amendedBoundaryMatch, six branches tried in order with
a final verdict at each occurrence test that fires: exact equality of
the lowercased identifier; fragment as its prefix, the verdict then
being the check on the following original character; failing that, as
its suffix, with the check on the preceding character; failing those,
an occurrence between underscores matches outright; failing that, an
occurrence after an underscore, the verdict then being the check on the
character following the first such occurrence; only when no earlier
occurrence test fired, a case-insensitive camel test accepting the
fragment between an ASCII letter and a letter-or-end position. A
boundary character passes whenever it equals its own uppercase form
(digits and symbols included). Concretely: maxAmountIn is still
classified token-decimal; capricorn matches apr through the camel
branch; x_aprX matches apr through the after-underscore branch though
no spec condition holds there; and x_aprxCaprY does not match apr at
all, because the failed after-underscore verdict is final and masks the
camel occurrence the regex would otherwise find. -/
theorem matchesOne_eq_amendedBoundaryMatch :
    (∀ name pattern, matchesOne name pattern = amendedBoundaryMatch name pattern) ∧
    inferUnitType ⟨some "maxAmountIn", "uint256"⟩ = UnitType.token ∧
    matchesOne "capricorn".data "apr".data = true ∧
    matchesOne "x_aprX".data "apr".data = true ∧
    specWordBoundaryMatch "x_aprX".data "apr".data = false ∧
    camelTest "x_aprX".data "apr".data = false ∧
    matchesOne "x_aprxCaprY".data "apr".data = false ∧
    camelTest "x_aprxCaprY".data "apr".data = true := by
  refine ⟨?_, by decide, by decide, by decide, by decide, by decide, by decide, by decide⟩
  intro name pattern
  simp only [matchesOne, amendedBoundaryMatch, nextCharBoundary, prevCharBoundary,
    underscoreFollowBoundary]
  cases h1 : (jsLower name == pattern) <;>
  cases h2 : pattern.isPrefixOf (jsLower name) <;>
  cases h3 : pattern.isSuffixOf (jsLower name) <;>
  cases h4 : jsIncludes ('_' :: pattern ++ ['_']) (jsLower name) <;>
  cases h5 : jsIncludes ('_' :: pattern) (jsLower name) <;>
  simp [h1, h2, h3, h4, h5]


/-!
Unit conversions used by UnitInput (src/components/UnitInput.tsx).
The ether, gwei and token tabs convert through the library functions
formatEther, formatGwei, formatUnits and parseEther, parseGwei,
parseUnits, which are not part of this repository; they are modelled
below from the spec: toTokenDecimal is the raw-to-display direction
(format with a fixed decimals count) and fromTokenDecimal the
display-to-raw direction (parse with the same decimals count), exact
arbitrary-precision arithmetic, with the rounding branch's use of the
JS Number type modelled as exact rational rounding. Non-negative values
only, as the round-trip claim quantifies over non-negative raw values.
-/

/-- The decimal digit character of a value below ten. -/
def digitChar (d : Nat) : Char := Char.ofNat (48 + d % 10)

/-- Numeric value of a decimal digit character. -/
def charDigitVal (c : Char) : Nat := c.toNat - 48

/-- A decimal digit character. -/
def isDigitCh (c : Char) : Bool := 48 ≤ c.toNat && c.toNat ≤ 57

/-- Little-endian base-ten digits, computed with a structural fuel
argument so that concrete displays evaluate inside the kernel. -/
def natDigitsAux : Nat → Nat → List Nat
  | 0, _ => []
  | fuel + 1, n => if n = 0 then [] else (n % 10) :: natDigitsAux fuel (n / 10)

/-- Little-endian base-ten digits of a natural number (empty for zero). -/
def natDigitsLE (n : Nat) : List Nat := natDigitsAux n n

/-- JS Number/BigInt toString for a natural number: most significant
digit first, and the single digit 0 for zero. -/
def jsNatToString (n : Nat) : List Char :=
  if n = 0 then ['0'] else (natDigitsLE n).reverse.map digitChar

/-- BigInt of a string of decimal digits (the code only applies it to
digit strings; the empty string reads as zero, as in JS). -/
def charsToNat (s : List Char) : Nat :=
  s.foldl (fun a c => 10 * a + charDigitVal c) 0

/-- JS String.prototype.padStart with the zero character. -/
def padStartZeros (s : List Char) (n : Nat) : List Char :=
  List.replicate (n - s.length) '0' ++ s

/-- JS String.prototype.padEnd with the zero character. -/
def padEndZeros (s : List Char) (n : Nat) : List Char :=
  s ++ List.replicate (n - s.length) '0'

/-- The trailing-zero trim used on fraction strings. -/
def trimTrailingZeros (s : List Char) : List Char :=
  (s.reverse.dropWhile (fun c => c == '0')).reverse

/-- JS value.split at the dot, keeping the first two parts: the part
before the first dot, and (when a dot exists) the part between the first
dot and the next dot or the end. -/
def splitDot (s : List Char) : List Char × Option (List Char) :=
  let integer := s.takeWhile (fun c => c != '.')
  match s.dropWhile (fun c => c != '.') with
  | [] => (integer, none)
  | _ :: rest => (integer, some (rest.takeWhile (fun c => c != '.')))

/-- Math.round of a pure fraction given by its digit string (the value
0.s): one exactly when the fraction is at least one half, so when the
first digit is five or more; an empty string reads as NaN, which never
rounds to one. -/
def roundHalfUpCarry (fraction : List Char) : Nat :=
  match fraction with
  | [] => 0
  | c :: _ => if 53 ≤ c.toNat then 1 else 0

/-- Modelled from the spec: the raw-to-display conversion of the library
(formatUnits): print the value, left-pad with zeros to the decimals
count, split into integer and fraction parts, trim the fraction's
trailing zeros, and join with a dot when a fraction remains. -/
def formatUnitsL (value decimals : Nat) : List Char :=
  let display := jsNatToString value
  let padded := padStartZeros display decimals
  let integer := padded.take (padded.length - decimals)
  let fraction := trimTrailingZeros (padded.drop (padded.length - decimals))
  (if integer.isEmpty then ['0'] else integer) ++
    (if fraction.isEmpty then [] else '.' :: fraction)

/-- Modelled from the spec: the display-to-raw conversion of the library
(parseUnits): split at the dot (a missing fraction defaults to the digit
zero), trim trailing zeros, and then: with zero decimals, round the
fraction into a carry onto the integer; with a fraction longer than the
decimals count, round at the decimals position with carry propagation;
otherwise right-pad the fraction with zeros to the decimals count and
concatenate. -/
def parseUnitsL (s : List Char) (decimals : Nat) : Nat :=
  let q := splitDot s
  let integer := q.1
  let fraction0 := q.2.getD ['0']
  let fraction := trimTrailingZeros fraction0
  if decimals = 0 then
    charsToNat integer + roundHalfUpCarry fraction
  else if decimals < fraction.length then
    let left := fraction.take (decimals - 1)
    let unit := (fraction.drop (decimals - 1)).take 1
    let right := fraction.drop decimals
    let rounded := charsToNat unit + roundHalfUpCarry right
    let fraction1 :=
      if 9 < rounded then
        padStartZeros (jsNatToString (charsToNat left + 1) ++ ['0']) (left.length + 1)
      else left ++ jsNatToString rounded
    let carry := if decimals < fraction1.length then 1 else 0
    let fraction2 := if decimals < fraction1.length then fraction1.drop 1 else fraction1
    let fraction3 := fraction2.take decimals
    (charsToNat integer + carry) * 10 ^ fraction3.length + charsToNat fraction3
  else
    charsToNat (integer ++ padEndZeros fraction decimals)

/-- String-level raw-to-display conversion at a decimals count. -/
def formatUnits (value decimals : Nat) : String := String.mk (formatUnitsL value decimals)

/-- String-level display-to-raw conversion at a decimals count. -/
def parseUnits (s : String) (decimals : Nat) : Nat := parseUnitsL s.data decimals

/-- The ether display of a wei value (eighteen decimals). -/
def formatEther (value : Nat) : String := formatUnits value 18

/-- The wei value of an ether display (eighteen decimals). -/
def parseEther (s : String) : Nat := parseUnits s 18

/-- The gwei display of a wei value (nine decimals). -/
def formatGwei (value : Nat) : String := formatUnits value 9

/-- The wei value of a gwei display (nine decimals). -/
def parseGwei (s : String) : Nat := parseUnits s 9

/-!
The basis-points tab of UnitInput (src/components/UnitInput.tsx, lines
83-85 and 141-143) computes through JS Number values: the display is
(Number(value) / 100).toFixed(2) and the raw value is recovered as
Math.round(parseFloat(display) * 100). Number values are IEEE-754
binary64 doubles, modelled further below as the exact rationals they
denote, with every operation rounded correctly to 53 significant bits
(round half to even), which is the ECMAScript semantics of these
operations. The two functions here are the exact ingredients: the
mathematical value a decimal string denotes, and Math.round, which the
ECMAScript spec defines on the exact value of its argument (the closest
integer, ties toward positive infinity). -/

/-- The exact rational value a plain decimal string denotes: integer
part plus fraction scaled by its length (rounding that value into
binary64 is jsParseFloatD below). -/
def parseFloatQ (s : List Char) : ℚ :=
  let q := splitDot s
  (charsToNat q.1 : ℚ) +
    (match q.2 with
     | none => 0
     | some f => (charsToNat f : ℚ) / 10 ^ f.length)

/-- Math.round on the exact value of its argument: the nearest integer,
half rounded up, per the ECMAScript definition. -/
def jsMathRound (q : ℚ) : ℤ := ⌊q + 1 / 2⌋


/-- Value of a digit character made from a digit. -/
theorem charDigitVal_digitChar (d : Nat) (h : d < 10) : charDigitVal (digitChar d) = d := by
  interval_cases d <;> decide

/-- Digit characters are digits. -/
theorem isDigitCh_digitChar (d : Nat) : isDigitCh (digitChar d) = true := by
  have h : d % 10 < 10 := Nat.mod_lt d (by norm_num)
  unfold digitChar
  generalize d % 10 = e at h
  interval_cases e <;> decide

/-- A digit character is not the dot. -/
theorem isDigitCh_ne_dot {c : Char} (h : isDigitCh c = true) : (c != '.') = true := by
  cases heq : (c == '.') with
  | false => simp [bne, heq]
  | true =>
      have : c = '.' := eq_of_beq heq
      subst this
      exact absurd h (by decide)

/-- Folding the digit accumulator from an arbitrary start. -/
theorem charsToNat_foldl (b : List Char) :
    ∀ i, b.foldl (fun a c => 10 * a + charDigitVal c) i =
      i * 10 ^ b.length + charsToNat b := by
  induction b with
  | nil => intro i; simp [charsToNat]
  | cons c t ih =>
      intro i
      have hc : charsToNat (c :: t) = charDigitVal c * 10 ^ t.length + charsToNat t := by
        have hstep : charsToNat (c :: t) =
            List.foldl (fun a x => 10 * a + charDigitVal x) (10 * 0 + charDigitVal c) t := rfl
        rw [hstep, ih (10 * 0 + charDigitVal c)]
        ring
      simp only [List.foldl_cons]
      rw [ih (10 * i + charDigitVal c), hc, List.length_cons, pow_succ]
      ring

/-- The numeric value of a concatenation of digit strings. -/
theorem charsToNat_append (a b : List Char) :
    charsToNat (a ++ b) = charsToNat a * 10 ^ b.length + charsToNat b := by
  simp only [charsToNat, List.foldl_append]
  exact charsToNat_foldl b _

/-- A run of zero characters has value zero. -/
theorem charsToNat_replicate_zero (k : Nat) :
    charsToNat (List.replicate k '0') = 0 := by
  induction k with
  | zero => rfl
  | succ n ih =>
      rw [List.replicate_succ]
      exact ih

/-- The fuel-based digit list agrees with the digits of Mathlib once the
fuel covers the number. -/
theorem natDigitsAux_eq (fuel : Nat) : ∀ n, n ≤ fuel → natDigitsAux fuel n = Nat.digits 10 n := by
  induction fuel with
  | zero =>
      intro n h
      have hn : n = 0 := by omega
      subst hn
      simp [natDigitsAux]
  | succ f ih =>
      intro n h
      by_cases hn : n = 0
      · subst hn
        simp [natDigitsAux]
      · simp only [natDigitsAux, if_neg hn]
        have hdiv : n / 10 ≤ f := by
          have : n / 10 < n := Nat.div_lt_self (Nat.pos_of_ne_zero hn) (by norm_num)
          omega
        rw [ih (n / 10) hdiv]
        rw [Nat.digits_def' (by norm_num : (1 : ℕ) < 10) (Nat.pos_of_ne_zero hn)]

/-- The fuel-based digit list of a number is its digit list. -/
theorem natDigitsLE_eq (n : Nat) : natDigitsLE n = Nat.digits 10 n :=
  natDigitsAux_eq n n le_rfl

/-- Printing a natural number and reading it back is the identity. -/
theorem charsToNat_jsNatToString (n : Nat) : charsToNat (jsNatToString n) = n := by
  by_cases h : n = 0
  · subst h; decide
  · have hd : ∀ d ∈ Nat.digits 10 n, d < 10 := fun d hmem =>
      Nat.digits_lt_base (by norm_num) hmem
    rw [show jsNatToString n = (Nat.digits 10 n).reverse.map digitChar by
      simp only [jsNatToString, if_neg h, natDigitsLE_eq]]
    have hmap : ∀ (L : List Nat), (∀ d ∈ L, d < 10) → ∀ i,
        (L.map digitChar).foldl (fun a c => 10 * a + charDigitVal c) i =
          L.foldl (fun a d => 10 * a + d) i := by
      intro L
      induction L with
      | nil => intro _ i; rfl
      | cons d t ih =>
          intro hL i
          simp only [List.map_cons, List.foldl_cons]
          rw [charDigitVal_digitChar d (hL d (by simp))]
          exact ih (fun x hx => hL x (by simp [hx])) _
    have hfoldr : ∀ (L : List Nat),
        L.foldr (fun d a => 10 * a + d) 0 = Nat.ofDigits 10 L := by
      intro L
      induction L with
      | nil => simp [Nat.ofDigits]
      | cons d t ih =>
          simp only [List.foldr_cons, ih, Nat.ofDigits_cons]
          ring
    simp only [charsToNat]
    rw [hmap _ (fun d hmem => hd d (by simpa using hmem)) 0]
    rw [List.foldl_reverse]
    show (Nat.digits 10 n).foldr (fun d a => 10 * a + d) 0 = n
    rw [hfoldr (Nat.digits 10 n), Nat.ofDigits_digits]

/-- Every character of a printed natural number is a digit. -/
theorem jsNatToString_digits (n : Nat) : ∀ c ∈ jsNatToString n, isDigitCh c = true := by
  intro c hc
  by_cases h : n = 0
  · subst h; simp only [jsNatToString] at hc; simp at hc; subst hc; decide
  · simp only [jsNatToString, if_neg h, natDigitsLE_eq, List.mem_map] at hc
    obtain ⟨d, _, rfl⟩ := hc
    exact isDigitCh_digitChar d

/-- Every character of a zero run is a digit. -/
theorem replicate_zero_digits (k : Nat) :
    ∀ c ∈ List.replicate k '0', isDigitCh c = true := by
  intro c hc
  have : c = '0' := List.eq_of_mem_replicate hc
  subst this; decide

/-- takeWhile over a block that wholly satisfies the predicate. -/
theorem takeWhile_append_of_all (p : Char → Bool) (a b : List Char)
    (h : ∀ c ∈ a, p c = true) :
    (a ++ b).takeWhile p = a ++ b.takeWhile p := by
  induction a with
  | nil => simp
  | cons c t ih =>
      simp only [List.cons_append, List.takeWhile_cons, h c (by simp)]
      rw [ih (fun x hx => h x (by simp [hx]))]
      simp

/-- dropWhile over a block that wholly satisfies the predicate. -/
theorem dropWhile_append_of_all (p : Char → Bool) (a b : List Char)
    (h : ∀ c ∈ a, p c = true) :
    (a ++ b).dropWhile p = b.dropWhile p := by
  induction a with
  | nil => simp
  | cons c t ih =>
      simp only [List.cons_append, List.dropWhile_cons, h c (by simp)]
      exact ih (fun x hx => h x (by simp [hx]))

/-- Splitting a dotless digit string gives the string and no fraction. -/
theorem splitDot_no_dot (s : List Char) (h : ∀ c ∈ s, isDigitCh c = true) :
    splitDot s = (s, none) := by
  have htake : s.takeWhile (fun c => c != '.') = s := by
    have := takeWhile_append_of_all (fun c => c != '.') s []
      (fun c hc => isDigitCh_ne_dot (h c hc))
    simpa using this
  have hdrop : s.dropWhile (fun c => c != '.') = [] := by
    have := dropWhile_append_of_all (fun c => c != '.') s []
      (fun c hc => isDigitCh_ne_dot (h c hc))
    simpa using this
  simp [splitDot, htake, hdrop]

/-- Splitting digits, a dot, then digits recovers the two parts. -/
theorem splitDot_append_dot (a b : List Char)
    (ha : ∀ c ∈ a, isDigitCh c = true) (hb : ∀ c ∈ b, isDigitCh c = true) :
    splitDot (a ++ '.' :: b) = (a, some b) := by
  have hpa : ∀ c ∈ a, (c != '.') = true := fun c hc => isDigitCh_ne_dot (ha c hc)
  have htake : (a ++ '.' :: b).takeWhile (fun c => c != '.') = a := by
    rw [takeWhile_append_of_all _ _ _ hpa]
    simp [List.takeWhile_cons]
  have hdrop : (a ++ '.' :: b).dropWhile (fun c => c != '.') = '.' :: b := by
    rw [dropWhile_append_of_all _ _ _ hpa]
    simp [List.dropWhile_cons]
  have htb : b.takeWhile (fun c => c != '.') = b := by
    have := takeWhile_append_of_all (fun c => c != '.') b []
      (fun c hc => isDigitCh_ne_dot (hb c hc))
    simpa using this
  simp [splitDot, htake, hdrop, htb]

/-- A string is its trailing-zero trim followed by a run of zeros. -/
theorem trim_decomp (s : List Char) :
    ∃ k, s = trimTrailingZeros s ++ List.replicate k '0' := by
  refine ⟨(s.reverse.takeWhile (fun c => c == '0')).length, ?_⟩
  have hsplit := List.takeWhile_append_dropWhile (p := fun c => c == '0') (l := s.reverse)
  have hrep : s.reverse.takeWhile (fun c => c == '0') =
      List.replicate (s.reverse.takeWhile (fun c => c == '0')).length '0' := by
    rw [List.eq_replicate_iff]
    refine ⟨rfl, fun c hc => ?_⟩
    have := List.mem_takeWhile_imp hc
    exact eq_of_beq this
  calc s = s.reverse.reverse := by rw [List.reverse_reverse]
  _ = (s.reverse.takeWhile (fun c => c == '0') ++
        s.reverse.dropWhile (fun c => c == '0')).reverse := by rw [hsplit]
  _ = trimTrailingZeros s ++ (s.reverse.takeWhile (fun c => c == '0')).reverse := by
        rw [List.reverse_append]; rfl
  _ = _ := by rw [hrep, List.reverse_replicate, List.length_replicate]

/-- Dropping while a predicate holds is idempotent. -/
theorem dropWhile_idem (p : Char → Bool) (l : List Char) :
    (l.dropWhile p).dropWhile p = l.dropWhile p := by
  induction l with
  | nil => rfl
  | cons c t ih =>
      by_cases h : p c = true
      · simp [List.dropWhile_cons, h, ih]
      · simp [List.dropWhile_cons, h]

/-- Trimming trailing zeros twice is the same as trimming once. -/
theorem trimTrailingZeros_idem (s : List Char) :
    trimTrailingZeros (trimTrailingZeros s) = trimTrailingZeros s := by
  unfold trimTrailingZeros
  rw [List.reverse_reverse, dropWhile_idem]

/-- Characters of the trim are characters of the string. -/
theorem trim_mem {c : Char} {s : List Char} (h : c ∈ trimTrailingZeros s) : c ∈ s := by
  unfold trimTrailingZeros at h
  rw [List.mem_reverse] at h
  have := (List.dropWhile_sublist (l := s.reverse) (p := fun c => c == '0')).subset h
  simpa using this


/-- Parsing a digit-only display (no dot) at any decimals count scales by
ten to the decimals. -/
theorem parseUnitsL_int_display (IT : List Char) (d : Nat)
    (hIT : ∀ c ∈ IT, isDigitCh c = true) :
    parseUnitsL IT d = charsToNat IT * 10 ^ d := by
  have hsplit : splitDot IT = (IT, none) := splitDot_no_dot IT hIT
  have htr : trimTrailingZeros ['0'] = [] := rfl
  by_cases hd : d = 0
  · subst hd
    simp [parseUnitsL, hsplit, htr, roundHalfUpCarry]
  · simp only [parseUnitsL, hsplit, Option.getD_none, htr, if_neg hd, List.length_nil,
      Nat.not_lt_zero, if_false, padEndZeros, List.nil_append, Nat.sub_zero]
    rw [charsToNat_append, charsToNat_replicate_zero, List.length_replicate]
    simp

/-- Parsing a display with a dot and an already-trimmed fraction no longer
than the decimals count. -/
theorem parseUnitsL_frac_display (IT FR : List Char) (d : Nat)
    (hIT : ∀ c ∈ IT, isDigitCh c = true) (hFR : ∀ c ∈ FR, isDigitCh c = true)
    (hne : FR ≠ []) (hlen : FR.length ≤ d) (htrim : trimTrailingZeros FR = FR) :
    parseUnitsL (IT ++ '.' :: FR) d =
      charsToNat IT * 10 ^ d + charsToNat FR * 10 ^ (d - FR.length) := by
  have hsplit : splitDot (IT ++ '.' :: FR) = (IT, some FR) :=
    splitDot_append_dot IT FR hIT hFR
  have hd0 : d ≠ 0 := by
    have : 0 < FR.length := List.length_pos.mpr hne
    omega
  have hnlt : ¬ (d < FR.length) := by omega
  simp only [parseUnitsL, hsplit, Option.getD_some, htrim, if_neg hd0, if_neg hnlt,
    padEndZeros]
  rw [charsToNat_append, charsToNat_append, charsToNat_replicate_zero,
    List.length_append, List.length_replicate]
  have hexp : FR.length + (d - FR.length) = d := by omega
  rw [hexp]
  ring

/-- Parsing the display assembled the way formatUnitsL assembles it. -/
theorem parse_format_assembled (IT FT : List Char) (d k v : Nat)
    (hITdig : ∀ c ∈ IT, isDigitCh c = true)
    (hFTdig : ∀ c ∈ FT, isDigitCh c = true)
    (hFTtrim : trimTrailingZeros FT = FT)
    (hlen : FT.length + k = d)
    (hval : charsToNat IT * 10 ^ d + charsToNat FT * 10 ^ k = v) :
    parseUnitsL ((if IT.isEmpty then ['0'] else IT) ++
      (if FT.isEmpty then [] else '.' :: FT)) d = v := by
  have hIDdig : ∀ c ∈ (if IT.isEmpty then ['0'] else IT), isDigitCh c = true := by
    cases IT with
    | nil => intro c hc; simp at hc; subst hc; decide
    | cons a t => simpa using hITdig
  have hIDval : charsToNat (if IT.isEmpty then ['0'] else IT) = charsToNat IT := by
    cases IT with
    | nil => decide
    | cons a t => rfl
  cases hF : FT with
  | nil =>
      subst hF
      simp only [List.isEmpty_nil, if_true, List.append_nil]
      rw [parseUnitsL_int_display _ d hIDdig, hIDval]
      simpa [charsToNat] using hval
  | cons a t =>
      have hne : FT ≠ [] := by rw [hF]; exact List.cons_ne_nil a t
      have hemp : FT.isEmpty = false := by rw [hF]; rfl
      rw [← hF]
      have hfr : (if FT.isEmpty then ([] : List Char) else '.' :: FT) = '.' :: FT := by
        rw [hemp]
        rfl
      rw [hfr]
      have hlen2 : FT.length ≤ d := by omega
      rw [parseUnitsL_frac_display _ _ d hIDdig hFTdig hne hlen2 hFTtrim, hIDval]
      have hkk : d - FT.length = k := by omega
      rw [hkk]
      exact hval

/-- The round trip of the spec: format a non-negative raw value at a fixed
decimals count and parse the display back; the raw value returns exactly. -/
theorem parseUnitsL_formatUnitsL (v d : Nat) :
    parseUnitsL (formatUnitsL v d) d = v := by
  have hpad_digits : ∀ c ∈ padStartZeros (jsNatToString v) d, isDigitCh c = true := by
    intro c hc
    rcases List.mem_append.mp hc with h1 | h2
    · exact replicate_zero_digits _ c h1
    · exact jsNatToString_digits v c h2
  have hpadval : charsToNat (padStartZeros (jsNatToString v) d) = v := by
    rw [show padStartZeros (jsNatToString v) d =
      List.replicate (d - (jsNatToString v).length) '0' ++ jsNatToString v from rfl,
      charsToNat_append, charsToNat_replicate_zero, charsToNat_jsNatToString]
    simp
  have hpadlen : d ≤ (padStartZeros (jsNatToString v) d).length := by
    simp only [padStartZeros, List.length_append, List.length_replicate]
    omega
  have hITdig : ∀ c ∈ (padStartZeros (jsNatToString v) d).take
      ((padStartZeros (jsNatToString v) d).length - d), isDigitCh c = true :=
    fun c hc => hpad_digits c ((List.take_sublist _ _).subset hc)
  have hF0dig : ∀ c ∈ (padStartZeros (jsNatToString v) d).drop
      ((padStartZeros (jsNatToString v) d).length - d), isDigitCh c = true :=
    fun c hc => hpad_digits c ((List.drop_sublist _ _).subset hc)
  have hFTdig : ∀ c ∈ trimTrailingZeros ((padStartZeros (jsNatToString v) d).drop
      ((padStartZeros (jsNatToString v) d).length - d)), isDigitCh c = true :=
    fun c hc => hF0dig c (trim_mem hc)
  have hF0len : ((padStartZeros (jsNatToString v) d).drop
      ((padStartZeros (jsNatToString v) d).length - d)).length = d := by
    rw [List.length_drop]
    omega
  have hvalP : charsToNat ((padStartZeros (jsNatToString v) d).take
        ((padStartZeros (jsNatToString v) d).length - d)) * 10 ^ d +
      charsToNat ((padStartZeros (jsNatToString v) d).drop
        ((padStartZeros (jsNatToString v) d).length - d)) = v := by
    have happ := charsToNat_append
      ((padStartZeros (jsNatToString v) d).take ((padStartZeros (jsNatToString v) d).length - d))
      ((padStartZeros (jsNatToString v) d).drop ((padStartZeros (jsNatToString v) d).length - d))
    rw [List.take_append_drop, hpadval, hF0len] at happ
    exact happ.symm
  obtain ⟨k, hk⟩ := trim_decomp ((padStartZeros (jsNatToString v) d).drop
    ((padStartZeros (jsNatToString v) d).length - d))
  have hklen : ((padStartZeros (jsNatToString v) d).drop
      ((padStartZeros (jsNatToString v) d).length - d)).length =
      (trimTrailingZeros ((padStartZeros (jsNatToString v) d).drop
        ((padStartZeros (jsNatToString v) d).length - d))).length + k := by
    conv_lhs => rw [hk]
    simp
  have hF0val : charsToNat ((padStartZeros (jsNatToString v) d).drop
      ((padStartZeros (jsNatToString v) d).length - d)) =
      charsToNat (trimTrailingZeros ((padStartZeros (jsNatToString v) d).drop
        ((padStartZeros (jsNatToString v) d).length - d))) * 10 ^ k := by
    conv_lhs => rw [hk]
    rw [charsToNat_append, charsToNat_replicate_zero, List.length_replicate]
    simp
  exact parse_format_assembled _ _ d k v hITdig hFTdig
    (trimTrailingZeros_idem _) (by omega) (by rw [← hF0val]; exact hvalP)


/-- Math.round lands within half a unit of its input: the result is a
nearest integer. -/
theorem jsMathRound_nearest (q : ℚ) : |((jsMathRound q : ℤ) : ℚ) - q| ≤ 1 / 2 := by
  unfold jsMathRound
  rw [abs_le]
  constructor
  · have hlt := Int.lt_floor_add_one (q + 1 / 2)
    push_cast at hlt ⊢
    linarith
  · have hle := Int.floor_le (q + 1 / 2)
    push_cast at hle ⊢
    linarith

/-!
The binary64 model: every value in the pipeline is an exact positive
rational carried as a numerator-denominator pair of naturals (rational
arithmetic on pairs keeps every step a kernel-computable integer
operation); each double operation computes the exact rational result
and rounds it to 53 significant bits, round half to even, which is the
ECMAScript semantics. The model covers the positive normal range (no
overflow, underflow or subnormal handling) and plain decimal notation
(toFixed emits exponential notation from 1e21 upward); every value a
theorem below evaluates at is well inside both limits.
-/

/-- Floor of the base-two logarithm, with a structural fuel argument
(fuel at least the number itself) so concrete values reduce in the
kernel. -/
def natLog2Aux : Nat → Nat → Nat
  | 0, _ => 0
  | fuel + 1, n => if 2 ≤ n then natLog2Aux fuel (n / 2) + 1 else 0

/-- Floor of the base-two logarithm of a natural number (zero at zero). -/
def natLog2 (n : Nat) : Nat := natLog2Aux n n

/-- The exact value of a plain decimal digit string as a
numerator-denominator pair: integer part scaled plus fraction part,
over ten to the fraction length. -/
def parseFloatP (s : List Char) : Nat × Nat :=
  let q := splitDot s
  match q.2 with
  | none => (charsToNat q.1, 1)
  | some f => (charsToNat q.1 * 10 ^ f.length + charsToNat f, 10 ^ f.length)

/-- Floor of the base-two logarithm of the positive rational num over
den: for a value at least one, the logarithm of its integer floor; for
a value below one with reciprocal floor in the window of L, the value
lies between two to the minus L minus one exclusive and two to the
minus L inclusive, so the answer is minus L exactly when the value is
that power and minus L minus one otherwise. -/
def floorLog2P (num den : Nat) : ℤ :=
  if den ≤ num then (natLog2 (num / den) : ℤ)
  else
    let L := natLog2 (den / num)
    if num * 2 ^ L = den then -(L : ℤ) else -(L : ℤ) - 1

/-- The nearest integer to num over den, ties to the even one. -/
def roundHalfEvenP (num den : Nat) : Nat :=
  let fl := num / den
  let r := num % den
  if 2 * r < den then fl
  else if den < 2 * r then fl + 1
  else if fl % 2 = 0 then fl else fl + 1

/-- The binary64 double nearest the positive rational num over den,
round half to even, returned as a pair: scale into the 53-bit
significand window by the exponent, round to an integer, scale back. -/
def roundToDoubleP (num den : Nat) : Nat × Nat :=
  let e : ℤ := floorLog2P num den - 52
  if 0 ≤ e then
    (roundHalfEvenP num (den * 2 ^ e.toNat) * 2 ^ e.toNat, 1)
  else
    (roundHalfEvenP (num * 2 ^ (-e).toNat) den, 2 ^ (-e).toNat)

/-- Floor of num over den plus one half: Math.round on the exact value,
in pair form. -/
def jsMathRoundP (num den : Nat) : Nat := (2 * num + den) / (2 * den)

/-- Number.prototype.toFixed with two fraction digits on a non-negative
double below 1e21, in pair form: the integer closest to one hundred
times the exact value (ties to the larger integer), printed with a dot
before its last two digits. -/
def toFixed2P (num den : Nat) : List Char :=
  let n := (num * 200 + den) / (2 * den)
  jsNatToString (n / 100) ++ '.' :: [digitChar (n % 100 / 10), digitChar (n % 100 % 10)]

/-- The percent display of a raw basis-points value string (UnitInput
lines 83-85): Number(value), correctly rounded double division by one
hundred, toFixed(2). -/
def toPercentFloat (s : List Char) : List Char :=
  let v := roundToDoubleP (parseFloatP s).1 (parseFloatP s).2
  let y := roundToDoubleP v.1 (v.2 * 100)
  toFixed2P y.1 y.2

/-- The raw value recovered from a percent display (UnitInput lines
141-143): parseFloat(display), correctly rounded double multiplication
by one hundred, Math.round. -/
def fromPercentFloat (s : List Char) : Nat :=
  let z := roundToDoubleP (parseFloatP s).1 (parseFloatP s).2
  let w := roundToDoubleP (z.1 * 100) z.2
  jsMathRoundP w.1 w.2

/-- The floor of a quotient of naturals over the rationals is natural
division. -/
theorem intFloor_natCast_div (a b : Nat) (hb : 0 < b) :
    ⌊((a : ℚ) / (b : ℚ))⌋ = (a / b : Nat) := by
  have hbq : (0 : ℚ) < (b : ℚ) := by exact_mod_cast hb
  have hlt : a < (a / b + 1) * b := by
    have hdm := Nat.div_add_mod a b
    have hmod := Nat.mod_lt a hb
    calc a = b * (a / b) + a % b := hdm.symm
    _ < b * (a / b) + b := Nat.add_lt_add_left hmod _
    _ = (a / b + 1) * b := by ring
  rw [Int.floor_eq_iff]
  constructor
  · rw [le_div_iff₀ hbq]
    push_cast
    exact_mod_cast Nat.div_mul_le_self a b
  · rw [div_lt_iff₀ hbq]
    push_cast
    exact_mod_cast hlt

/-- The pair form of Math.round agrees with Math.round on the exact
rational value. -/
theorem jsMathRoundP_eq (num den : Nat) (h : 0 < den) :
    (jsMathRoundP num den : ℤ) = jsMathRound ((num : ℚ) / (den : ℚ)) := by
  have hq : (num : ℚ) / (den : ℚ) + 1 / 2 =
      ((2 * num + den : Nat) : ℚ) / ((2 * den : Nat) : ℚ) := by
    have hd : ((den : ℚ)) ≠ 0 := by
      exact_mod_cast Nat.pos_iff_ne_zero.mp h
    push_cast
    field_simp
    ring
  rw [jsMathRound, hq, intFloor_natCast_div _ _ (by omega)]
  rfl

/-- The pair a decimal string parses to denotes its exact value. -/
theorem parseFloatP_eq (s : List Char) :
    ((parseFloatP s).1 : ℚ) / ((parseFloatP s).2 : ℚ) = parseFloatQ s := by
  simp only [parseFloatP, parseFloatQ]
  cases hsplit : (splitDot s).2 with
  | none => simp
  | some f =>
      simp only
      have h10 : (((10 : Nat) ^ f.length : Nat) : ℚ) ≠ 0 := by positivity
      field_simp
      try push_cast
      try ring

/-- C3 counterexample: through the program's binary64 pipeline the
basis-points reconversion does not reproduce every raw value: raw
2^53 + 1 displays as 90071992547409.92 percent and reconverts to 2^53,
not to itself (Number cannot even represent the input), while raw 125
round-trips exactly; so the claimed exact round trip for every raw
value fails at a concrete input. -/
theorem bps_float_roundTrip_counterexample :
    fromPercentFloat (toPercentFloat (jsNatToString 9007199254740993)) ≠
      9007199254740993 ∧
    fromPercentFloat (toPercentFloat (jsNatToString 9007199254740993)) =
      9007199254740992 ∧
    toPercentFloat (jsNatToString 9007199254740993) = "90071992547409.92".data ∧
    fromPercentFloat (toPercentFloat (jsNatToString 125)) = 125 := by
  refine ⟨by decide, by decide, by decide, by decide⟩

/-- C3 amended: the wei to ether, wei to gwei and raw to token-decimal
round trips are exact for every non-negative raw integer at every
decimals count (those conversions are arbitrary-precision integer and
string arithmetic); the basis-points path runs through binary64
doubles, where raw 125 displays as the string 1.25 and reconverts to
exactly 125 (raw 5 likewise through 0.05), and the reconversion is the
nearest integer of one hundred times the percent value; that round
trip is exact only within the integer range doubles represent exactly,
failing at raw 2^53 + 1, which reconverts to 2^53. -/
theorem unit_conversion_roundTrip_amended (R : Nat) :
    parseEther (formatEther R) = R ∧
    parseGwei (formatGwei R) = R ∧
    (∀ D ∈ ([0, 6, 8, 18, 24] : List Nat), parseUnits (formatUnits R D) D = R) ∧
    toPercentFloat (jsNatToString 125) = "1.25".data ∧
    fromPercentFloat "1.25".data = 125 ∧
    fromPercentFloat (toPercentFloat (jsNatToString 5)) = 5 ∧
    fromPercentFloat (toPercentFloat (jsNatToString 9007199254740993)) =
      9007199254740992 ∧
    (∀ q : ℚ, |((jsMathRound (q * 100) : ℤ) : ℚ) - q * 100| ≤ 1 / 2) := by
  refine ⟨parseUnitsL_formatUnitsL R 18, parseUnitsL_formatUnitsL R 9,
    fun D _ => parseUnitsL_formatUnitsL R D, by decide, by decide, by decide,
    by decide, fun q => jsMathRound_nearest (q * 100)⟩

/-- C3 witness: the amended theorem applied at raw value 5 with six
decimals. -/
theorem unit_conversion_roundTrip_amended_witness :
    parseUnits (formatUnits 5 6) 6 = 5 :=
  (unit_conversion_roundTrip_amended 5).2.2.1 6 (by decide)

/-!
Proxy detection (src/lib/proxy.ts). The chain client is abstracted to a
storage oracle from slot to read outcome; getStorageAt may return a
32-byte word, an empty result the code treats as falsy (undefined or the
bare 0x, modelled as none), or throw an RPC error.
-/

/-- Proxy pattern tags (the proxyType union of src/lib/proxy.ts). -/
inductive ProxyType where
  | eip1967 | eip1822 | openZeppelin | beacon | unknown
deriving DecidableEq, Repr

/-- Result record of proxy detection (the ProxyInfo of src/lib/proxy.ts). -/
structure ProxyInfo where
  isProxy : Bool
  implementation : Option Nat
  proxyType : Option ProxyType
deriving DecidableEq, Repr

/-- One getStorageAt outcome: a word (none for a falsy or empty result),
or a thrown RPC error. -/
inductive SlotRead where
  | ok (w : Option Nat)
  | err
deriving DecidableEq, Repr

/-- The standard EIP-1967 implementation slot. -/
def EIP1967_IMPLEMENTATION_SLOT : Nat :=
  0x360894a13ba1a3210667c828492db98dca3e2076cc3735a920a3ca505d382bbc

/-- The EIP-1822 UUPS implementation slot. -/
def EIP1822_IMPLEMENTATION_SLOT : Nat :=
  0xc5f16f0fcc639fa48a6947836d9850f504798523bf8c9a3a87d5876cf622bcf7

/-- The legacy OpenZeppelin implementation slot. -/
def OZ_IMPLEMENTATION_SLOT : Nat :=
  0x7050c9e0f4ca769c69bd3a8ef740bc37934f8e2c036e5a723fd8ee048ed3f8c3

/-- The EIP-1967 beacon slot. -/
def EIP1967_BEACON_SLOT : Nat :=
  0xa3f0ad74e5423aebfd80d3ef4346578335a9a72aeaee59ff6cb3582b35133d50

/-- The fixed order in which detectProxy reads the four slots, with the
pattern tag each one reports. -/
def PROXY_SLOT_ORDER : List (Nat × ProxyType) :=
  [(EIP1967_IMPLEMENTATION_SLOT, ProxyType.eip1967),
   (EIP1822_IMPLEMENTATION_SLOT, ProxyType.eip1822),
   (OZ_IMPLEMENTATION_SLOT, ProxyType.openZeppelin),
   (EIP1967_BEACON_SLOT, ProxyType.beacon)]

/-- The low 20 bytes of a 32-byte word: what slice(-40) of the hex word
plus getAddress extracts. -/
def lowAddress (w : Nat) : Nat := w % 2 ^ 160

/-- A slot outcome the code walks past: a falsy or empty result, or the
zero word. -/
def slotEmpty : SlotRead → Bool
  | SlotRead.ok none => true
  | SlotRead.ok (some w) => w == 0
  | SlotRead.err => false

/-- detectProxy (src/lib/proxy.ts lines 24-96) over the slot list, also
returning the trace of slots read: slots are read in order inside one
try block; the first non-zero word short-circuits into a proxy result
with the word's low 20 bytes and the slot's pattern tag; a thrown error
lands in the catch, which returns a non-proxy result without reading any
further slot; walking off the list returns a non-proxy result. -/
def detectProxyGo (storage : Nat → SlotRead) :
    List (Nat × ProxyType) → ProxyInfo × List Nat
  | [] => (⟨false, none, none⟩, [])
  | (slot, ty) :: rest =>
      match storage slot with
      | SlotRead.err => (⟨false, none, none⟩, [slot])
      | SlotRead.ok none =>
          let r := detectProxyGo storage rest
          (r.1, slot :: r.2)
      | SlotRead.ok (some w) =>
          if w = 0 then
            let r := detectProxyGo storage rest
            (r.1, slot :: r.2)
          else (⟨true, some (lowAddress w), some ty⟩, [slot])

/-- The ProxyInfo detectProxy returns. -/
def detectProxy (storage : Nat → SlotRead) : ProxyInfo :=
  (detectProxyGo storage PROXY_SLOT_ORDER).1

/-- The slots detectProxy actually consulted. -/
def detectProxySlotsRead (storage : Nat → SlotRead) : List Nat :=
  (detectProxyGo storage PROXY_SLOT_ORDER).2

/-- detectProxyFull (src/lib/proxy.ts lines 122-143): storage detection
first; only a non-proxy storage result falls back to the
implementation() call, whose successfully parsed address (if any) is the
callResult argument here. -/
def detectProxyFull (storage : Nat → SlotRead) (callResult : Option Nat) : ProxyInfo :=
  let storageResult := detectProxy storage
  if storageResult.isProxy then storageResult
  else
    match callResult with
    | some addr => ⟨true, some addr, some ProxyType.unknown⟩
    | none => ⟨false, none, none⟩


/-- An empty slot outcome is a falsy read or the zero word. -/
theorem slotEmpty_cases (r : SlotRead) (h : slotEmpty r = true) :
    r = SlotRead.ok none ∨ r = SlotRead.ok (some 0) := by
  cases r with
  | ok w =>
      cases w with
      | none => exact Or.inl rfl
      | some v =>
          right
          have : v = 0 := by simpa [slotEmpty] using h
          rw [this]
  | err => exact absurd h (by decide)

/-- C4: the detector reads the four slots in the fixed order standard
EIP-1967, UUPS EIP-1822, legacy OpenZeppelin, beacon, short-circuits on
the first non-zero word returning that word's low 20 bytes and the
pattern tag of the slot it came from, and only when all four slots are
empty does detectProxyFull fall back to the implementation() call; in
particular, a non-zero standard slot yields the standard result and the
beacon slot is never consulted. -/
theorem detectProxy_priority (storage : Nat → SlotRead) (call : Option Nat) :
    (∀ w, storage EIP1967_IMPLEMENTATION_SLOT = SlotRead.ok (some w) → w ≠ 0 →
      detectProxy storage = ⟨true, some (lowAddress w), some ProxyType.eip1967⟩ ∧
      detectProxySlotsRead storage = [EIP1967_IMPLEMENTATION_SLOT] ∧
      EIP1967_BEACON_SLOT ∉ detectProxySlotsRead storage) ∧
    (∀ w, slotEmpty (storage EIP1967_IMPLEMENTATION_SLOT) = true →
      storage EIP1822_IMPLEMENTATION_SLOT = SlotRead.ok (some w) → w ≠ 0 →
      detectProxy storage = ⟨true, some (lowAddress w), some ProxyType.eip1822⟩ ∧
      detectProxySlotsRead storage =
        [EIP1967_IMPLEMENTATION_SLOT, EIP1822_IMPLEMENTATION_SLOT]) ∧
    (∀ w, slotEmpty (storage EIP1967_IMPLEMENTATION_SLOT) = true →
      slotEmpty (storage EIP1822_IMPLEMENTATION_SLOT) = true →
      storage OZ_IMPLEMENTATION_SLOT = SlotRead.ok (some w) → w ≠ 0 →
      detectProxy storage = ⟨true, some (lowAddress w), some ProxyType.openZeppelin⟩ ∧
      detectProxySlotsRead storage =
        [EIP1967_IMPLEMENTATION_SLOT, EIP1822_IMPLEMENTATION_SLOT,
         OZ_IMPLEMENTATION_SLOT]) ∧
    (∀ w, slotEmpty (storage EIP1967_IMPLEMENTATION_SLOT) = true →
      slotEmpty (storage EIP1822_IMPLEMENTATION_SLOT) = true →
      slotEmpty (storage OZ_IMPLEMENTATION_SLOT) = true →
      storage EIP1967_BEACON_SLOT = SlotRead.ok (some w) → w ≠ 0 →
      detectProxy storage = ⟨true, some (lowAddress w), some ProxyType.beacon⟩) ∧
    (slotEmpty (storage EIP1967_IMPLEMENTATION_SLOT) = true →
      slotEmpty (storage EIP1822_IMPLEMENTATION_SLOT) = true →
      slotEmpty (storage OZ_IMPLEMENTATION_SLOT) = true →
      slotEmpty (storage EIP1967_BEACON_SLOT) = true →
      detectProxy storage = ⟨false, none, none⟩ ∧
      (call = none → detectProxyFull storage call = ⟨false, none, none⟩) ∧
      (∀ a, call = some a →
        detectProxyFull storage call = ⟨true, some a, some ProxyType.unknown⟩)) := by
  refine ⟨?_, ?_, ?_, ?_, ?_⟩
  · intro w h1 hw
    have hreads : detectProxySlotsRead storage = [EIP1967_IMPLEMENTATION_SLOT] := by
      simp [detectProxySlotsRead, detectProxyGo, PROXY_SLOT_ORDER, h1, hw]
    refine ⟨?_, hreads, ?_⟩
    · simp [detectProxy, detectProxyGo, PROXY_SLOT_ORDER, h1, hw]
    · rw [hreads]
      decide
  · intro w h1 h2 hw
    rcases slotEmpty_cases _ h1 with hr1 | hr1 <;>
      constructor <;>
        simp [detectProxy, detectProxySlotsRead, detectProxyGo, PROXY_SLOT_ORDER,
          hr1, h2, hw]
  · intro w h1 h2 h3 hw
    rcases slotEmpty_cases _ h1 with hr1 | hr1 <;>
      rcases slotEmpty_cases _ h2 with hr2 | hr2 <;>
        constructor <;>
          simp [detectProxy, detectProxySlotsRead, detectProxyGo, PROXY_SLOT_ORDER,
            hr1, hr2, h3, hw]
  · intro w h1 h2 h3 h4 hw
    rcases slotEmpty_cases _ h1 with hr1 | hr1 <;>
      rcases slotEmpty_cases _ h2 with hr2 | hr2 <;>
        rcases slotEmpty_cases _ h3 with hr3 | hr3 <;>
          simp [detectProxy, detectProxyGo, PROXY_SLOT_ORDER, hr1, hr2, hr3, h4, hw]
  · intro h1 h2 h3 h4
    have hdet : detectProxy storage = ⟨false, none, none⟩ := by
      rcases slotEmpty_cases _ h1 with hr1 | hr1 <;>
        rcases slotEmpty_cases _ h2 with hr2 | hr2 <;>
          rcases slotEmpty_cases _ h3 with hr3 | hr3 <;>
            rcases slotEmpty_cases _ h4 with hr4 | hr4 <;>
              simp [detectProxy, detectProxyGo, PROXY_SLOT_ORDER, hr1, hr2, hr3, hr4]
    refine ⟨hdet, ?_, ?_⟩
    · intro hc
      simp [detectProxyFull, hdet, hc]
    · intro a hc
      simp [detectProxyFull, hdet, hc]

/-- C4 witness: a storage with a non-zero standard slot and a non-zero
beacon slot reports the standard pattern and never reads the beacon
slot. -/
theorem detectProxy_priority_witness :
    detectProxy (fun s =>
      if s = EIP1967_IMPLEMENTATION_SLOT then SlotRead.ok (some 77)
      else if s = EIP1967_BEACON_SLOT then SlotRead.ok (some 5)
      else SlotRead.ok none) =
      ⟨true, some (lowAddress 77), some ProxyType.eip1967⟩ ∧
    detectProxySlotsRead (fun s =>
      if s = EIP1967_IMPLEMENTATION_SLOT then SlotRead.ok (some 77)
      else if s = EIP1967_BEACON_SLOT then SlotRead.ok (some 5)
      else SlotRead.ok none) = [EIP1967_IMPLEMENTATION_SLOT] ∧
    EIP1967_BEACON_SLOT ∉ detectProxySlotsRead (fun s =>
      if s = EIP1967_IMPLEMENTATION_SLOT then SlotRead.ok (some 77)
      else if s = EIP1967_BEACON_SLOT then SlotRead.ok (some 5)
      else SlotRead.ok none) :=
  (detectProxy_priority _ none).1 77 (by decide) (by decide)

/-- C5 counterexample: with an RPC error on the first slot and a
non-zero second slot, the detector does not proceed to the second slot:
it stops at the first slot and reports not-a-proxy, instead of the
UUPS result the claim's per-slot error handling would give. -/
theorem detectProxy_error_counterexample :
    detectProxy (fun s =>
      if s = EIP1967_IMPLEMENTATION_SLOT then SlotRead.err
      else if s = EIP1822_IMPLEMENTATION_SLOT then SlotRead.ok (some 7)
      else SlotRead.ok none) = ⟨false, none, none⟩ ∧
    detectProxySlotsRead (fun s =>
      if s = EIP1967_IMPLEMENTATION_SLOT then SlotRead.err
      else if s = EIP1822_IMPLEMENTATION_SLOT then SlotRead.ok (some 7)
      else SlotRead.ok none) = [EIP1967_IMPLEMENTATION_SLOT] ∧
    detectProxy (fun s =>
      if s = EIP1967_IMPLEMENTATION_SLOT then SlotRead.err
      else if s = EIP1822_IMPLEMENTATION_SLOT then SlotRead.ok (some 7)
      else SlotRead.ok none) ≠
      ⟨true, some (lowAddress 7), some ProxyType.eip1822⟩ := by
  refine ⟨by decide, by decide, by decide⟩

/-- C5 amended: an RPC error while reading any storage slot is caught by
the single try/catch around the whole slot sequence: the detector
returns isProxy false immediately, reading no further slot, rather than
treating the slot as empty and proceeding; a total failure therefore
also returns isProxy false rather than throwing, and detectProxyFull
then still falls back to the implementation() call. -/
theorem detectProxy_error_aborts (storage : Nat → SlotRead) (call : Option Nat) :
    (storage EIP1967_IMPLEMENTATION_SLOT = SlotRead.err →
      detectProxy storage = ⟨false, none, none⟩ ∧
      detectProxySlotsRead storage = [EIP1967_IMPLEMENTATION_SLOT]) ∧
    (slotEmpty (storage EIP1967_IMPLEMENTATION_SLOT) = true →
      storage EIP1822_IMPLEMENTATION_SLOT = SlotRead.err →
      detectProxy storage = ⟨false, none, none⟩ ∧
      detectProxySlotsRead storage =
        [EIP1967_IMPLEMENTATION_SLOT, EIP1822_IMPLEMENTATION_SLOT]) ∧
    (slotEmpty (storage EIP1967_IMPLEMENTATION_SLOT) = true →
      slotEmpty (storage EIP1822_IMPLEMENTATION_SLOT) = true →
      storage OZ_IMPLEMENTATION_SLOT = SlotRead.err →
      detectProxy storage = ⟨false, none, none⟩ ∧
      detectProxySlotsRead storage =
        [EIP1967_IMPLEMENTATION_SLOT, EIP1822_IMPLEMENTATION_SLOT,
         OZ_IMPLEMENTATION_SLOT]) ∧
    (slotEmpty (storage EIP1967_IMPLEMENTATION_SLOT) = true →
      slotEmpty (storage EIP1822_IMPLEMENTATION_SLOT) = true →
      slotEmpty (storage OZ_IMPLEMENTATION_SLOT) = true →
      storage EIP1967_BEACON_SLOT = SlotRead.err →
      detectProxy storage = ⟨false, none, none⟩) ∧
    (detectProxy storage = ⟨false, none, none⟩ → call = none →
      detectProxyFull storage call = ⟨false, none, none⟩) ∧
    (detectProxy storage = ⟨false, none, none⟩ → ∀ a, call = some a →
      detectProxyFull storage call = ⟨true, some a, some ProxyType.unknown⟩) := by
  refine ⟨?_, ?_, ?_, ?_, ?_, ?_⟩
  · intro h1
    constructor <;> simp [detectProxy, detectProxySlotsRead, detectProxyGo,
      PROXY_SLOT_ORDER, h1]
  · intro h1 h2
    rcases slotEmpty_cases _ h1 with hr1 | hr1 <;>
      constructor <;>
        simp [detectProxy, detectProxySlotsRead, detectProxyGo, PROXY_SLOT_ORDER, hr1, h2]
  · intro h1 h2 h3
    rcases slotEmpty_cases _ h1 with hr1 | hr1 <;>
      rcases slotEmpty_cases _ h2 with hr2 | hr2 <;>
        constructor <;>
          simp [detectProxy, detectProxySlotsRead, detectProxyGo, PROXY_SLOT_ORDER,
            hr1, hr2, h3]
  · intro h1 h2 h3 h4
    rcases slotEmpty_cases _ h1 with hr1 | hr1 <;>
      rcases slotEmpty_cases _ h2 with hr2 | hr2 <;>
        rcases slotEmpty_cases _ h3 with hr3 | hr3 <;>
          simp [detectProxy, detectProxyGo, PROXY_SLOT_ORDER, hr1, hr2, hr3, h4]
  · intro hdet hc
    simp [detectProxyFull, hdet, hc]
  · intro hdet a hc
    simp [detectProxyFull, hdet, hc]

/-- C5 witness: the amended theorem applied to a storage whose first
slot read throws. -/
theorem detectProxy_error_aborts_witness :
    detectProxy (fun s =>
      if s = EIP1967_IMPLEMENTATION_SLOT then SlotRead.err
      else SlotRead.ok none) = ⟨false, none, none⟩ ∧
    detectProxySlotsRead (fun s =>
      if s = EIP1967_IMPLEMENTATION_SLOT then SlotRead.err
      else SlotRead.ok none) = [EIP1967_IMPLEMENTATION_SLOT] :=
  (detectProxy_error_aborts _ none).1 (by decide)


/-!
Explorer resolution (src/lib/explorers.ts): the verified-ABI check and
its two special error codes, the implementation-ABI fetch with its
proxy-data guard, the isProxy hint, and the function classifier.
-/

/-- Error kinds the resolver surfaces: the two special error codes of
fetchFromEtherscan and a wrapper for any other failure message. -/
inductive FetchErr where
  | noContractAtAddress
  | contractNotVerified
  | other (msg : String)
deriving DecidableEq, Repr

/-- The not-verified sentinel string of the explorer API. -/
def NOT_VERIFIED_SENTINEL : String := "Contract source code not verified"

/-- JS falsiness of an optional string field: absent or empty. -/
def jsStrFalsy : Option String → Bool
  | none => true
  | some s => s.isEmpty

/-- The verified-ABI check of fetchFromEtherscan (src/lib/explorers.ts
lines 104-131): a falsy or sentinel ABI field triggers a secondary
eth_getCode query; bytecode 0x or 0x0 raises the no-contract error, any
other bytecode the not-verified error, a failing code query its own
wrapped error; a present ABI string is returned. -/
def checkVerified (abiField : Option String) (codeFetch : Except String String) :
    Except FetchErr String :=
  if jsStrFalsy abiField || (abiField == some NOT_VERIFIED_SENTINEL) then
    match codeFetch with
    | Except.error e => Except.error (FetchErr.other e)
    | Except.ok code =>
        if code == "0x" || code == "0x0" then Except.error FetchErr.noContractAtAddress
        else Except.error FetchErr.contractNotVerified
  else Except.ok (abiField.getD "")

/-- An ABI entry, with the fields the resolver and classifier read:
entry kind, name, state mutability and the input parameter types. -/
structure AbiItem where
  type : String
  name : String
  stateMutability : String
  inputs : List String
deriving DecidableEq, Repr

/-- The shapes a getabi result takes (src/lib/explorers.ts lines
281-310): the standard ABI-as-JSON-string (carried here already
parsed), the getsourcecode record shape some API versions return
(contract name, proxy flag, truthy ABI field), or anything else. -/
inductive GetAbiPayload where
  | abiString (abi : List AbiItem)
  | sourceRecord (contractName : String) (proxyFlag : String) (abi : List AbiItem)
  | unexpected
deriving DecidableEq, Repr

/-- fetchImplementationAbi's handling of the getabi response
(src/lib/explorers.ts lines 269-320): a failed or non-success or
result-less response returns null; a string result is the ABI; a
getsourcecode-format record whose proxy flag is 1 or whose contract
name is the known proxy contract name returns null instead of that
record's ABI; an unexpected format throws and the surrounding catch
returns null. -/
def fetchImplementationAbi (respOk : Bool) (status : String)
    (payload : Option GetAbiPayload) : Option (List AbiItem) :=
  if respOk && status == "1" && payload.isSome then
    match payload with
    | some (GetAbiPayload.abiString abi) => some abi
    | some (GetAbiPayload.sourceRecord nm proxyFlag abi) =>
        if proxyFlag == "1" || nm == "FiatTokenProxy" then none
        else some abi
    | some GetAbiPayload.unexpected => none
    | none => none
  else none

/-- The explorer source-record fields the isProxy hint reads; either may
be absent in the provider's record. -/
structure SourceRecord where
  proxyFlag : Option String
  implementation : Option String
deriving DecidableEq, Repr

/-- The ABI scan for a function literally named implementation or
upgradeTo (src/lib/explorers.ts lines 138-141). -/
def hasProxyFunction (abi : List AbiItem) : Bool :=
  abi.any fun item =>
    item.type == "function" &&
      (item.name == "implementation" || item.name == "upgradeTo")

/-- The isProxy hint of fetchFromEtherscan (src/lib/explorers.ts lines
135-141): the proxy flag strictly equals 1, or the implementation field
is not strictly equal to the empty string (an absent field passes this
test), or the ABI contains one of the two proxy functions. -/
def isProxyHint (record : SourceRecord) (abi : List AbiItem) : Bool :=
  (record.proxyFlag == some "1") || !(record.implementation == some "") ||
    hasProxyFunction abi


/-- The sensitive-operation fragments (DANGEROUS_PATTERNS of
src/lib/explorers.ts lines 641-657). -/
def DANGEROUS_PATTERNS : List (List Char) :=
  ["transferownership", "setowner", "upgradeto", "upgradetoandcall",
   "setguardian", "settreasury", "emergencywithdraw", "selfdestruct",
   "destroy", "initialize", "reinitialize", "setadmin",
   "renounceownership", "transfercontrol", "setimplementation"].map String.data

/-- The whitespace class of the JS regex used by the normalizer
(ASCII range). -/
def jsIsSpaceChar (c : Char) : Bool :=
  c.toNat == 32 || c.toNat == 9 || c.toNat == 10 ||
    c.toNat == 13 || c.toNat == 11 || c.toNat == 12

/-- The name normalization of isDangerousFunction: lowercase, then strip
underscores and whitespace. -/
def normalizeFnName (s : List Char) : List Char :=
  (jsLower s).filter fun c => !(c == '_' || jsIsSpaceChar c)

/-- isDangerousFunction (src/lib/explorers.ts lines 660-673): the
normalized name equals a fragment exactly, or starts with one. -/
def isDangerousFunction (name : String) : Bool :=
  DANGEROUS_PATTERNS.any fun pattern =>
    if normalizeFnName name.data == pattern then true
    else if pattern.isPrefixOf (normalizeFnName name.data) then true
    else false

/-- The danger rule as the spec words it: the normalized name equals a
fragment of the fixed list exactly, or starts with one. -/
def specDangerous (name : String) : Bool :=
  decide (∃ p ∈ DANGEROUS_PATTERNS,
    normalizeFnName name.data = p ∨ p <+: normalizeFnName name.data)

/-- A ParsedFunction (src/lib/explorers.ts lines 632-637): the ABI entry
together with its canonical signature, display name and danger flag. -/
structure ParsedFunction where
  func : AbiItem
  signature : String
  displayName : String
  isDangerous : Bool
deriving DecidableEq, Repr

/-- The canonical signature: name, open paren, comma-joined input types,
close paren. -/
def signatureOf (f : AbiItem) : String :=
  f.name ++ "(" ++ String.intercalate "," f.inputs ++ ")"

/-- The display name: the signature when the joined parameter types are
non-empty (truthy), else the bare name. -/
def displayNameOf (f : AbiItem) : String :=
  if (String.intercalate "," f.inputs).isEmpty then f.name else signatureOf f

/-- A write function: kind function, mutability nonpayable or payable. -/
def isWriteFunction (item : AbiItem) : Bool :=
  item.type == "function" &&
    (item.stateMutability == "nonpayable" || item.stateMutability == "payable")

/-- A read function: kind function, mutability view or pure. -/
def isReadFunction (item : AbiItem) : Bool :=
  item.type == "function" &&
    (item.stateMutability == "view" || item.stateMutability == "pure")

/-- parseWriteFunctions (src/lib/explorers.ts lines 676-698): filter the
write functions and annotate each, the danger flag coming from
isDangerousFunction on the name. -/
def parseWriteFunctions (abi : List AbiItem) : List ParsedFunction :=
  (abi.filter isWriteFunction).map fun f =>
    ⟨f, signatureOf f, displayNameOf f, isDangerousFunction f.name⟩

/-- parseReadFunctions (src/lib/explorers.ts lines 701-720): filter the
view and pure functions and annotate each, the danger flag set to false
unconditionally. -/
def parseReadFunctions (abi : List AbiItem) : List ParsedFunction :=
  (abi.filter isReadFunction).map fun f =>
    ⟨f, signatureOf f, displayNameOf f, false⟩


/-- C6: with the ABI field absent or equal to the not-verified sentinel,
the resolver consults the secondary bytecode query and fails with
exactly one of two distinct error kinds: bytecode 0x (or 0x0) gives the
no-contract error, any other bytecode the not-verified error, and the
two kinds are distinct; it never succeeds in this situation. -/
theorem checkVerified_classification (abiField : Option String)
    (codeFetch : Except String String)
    (h : abiField = none ∨ abiField = some NOT_VERIFIED_SENTINEL) :
    (∀ code, codeFetch = Except.ok code → (code = "0x" ∨ code = "0x0") →
      checkVerified abiField codeFetch = Except.error FetchErr.noContractAtAddress) ∧
    (∀ code, codeFetch = Except.ok code → code ≠ "0x" → code ≠ "0x0" →
      checkVerified abiField codeFetch = Except.error FetchErr.contractNotVerified) ∧
    (∀ e, codeFetch = Except.error e →
      checkVerified abiField codeFetch = Except.error (FetchErr.other e)) ∧
    (∀ r, checkVerified abiField codeFetch ≠ Except.ok r) ∧
    FetchErr.noContractAtAddress ≠ FetchErr.contractNotVerified := by
  have hcond : (jsStrFalsy abiField || (abiField == some NOT_VERIFIED_SENTINEL)) = true := by
    rcases h with rfl | rfl <;> decide
  refine ⟨?_, ?_, ?_, ?_, by decide⟩
  · intro code hc hcode
    subst hc
    rcases hcode with rfl | rfl <;> simp [checkVerified, hcond]
  · intro code hc h1 h2
    subst hc
    have hb1 : (code == "0x") = false := beq_eq_false_iff_ne.mpr h1
    have hb2 : (code == "0x0") = false := beq_eq_false_iff_ne.mpr h2
    simp [checkVerified, hcond, hb1, hb2]
  · intro e hc
    subst hc
    simp [checkVerified, hcond]
  · intro r
    cases codeFetch with
    | error e => simp [checkVerified, hcond]
    | ok code =>
        simp only [checkVerified, hcond, if_true]
        split <;> simp
  
/-- C6 witness: absent ABI field and empty bytecode give the no-contract
error. -/
theorem checkVerified_classification_witness :
    checkVerified none (Except.ok "0x") = Except.error FetchErr.noContractAtAddress :=
  (checkVerified_classification none (Except.ok "0x") (Or.inl rfl)).1 "0x" rfl (Or.inl rfl)

/-- C7: an implementation-ABI fetch whose payload is a source record
indicating a proxy (proxy flag 1, or the known proxy contract name)
returns null rather than that record's ABI, whatever the response
status. -/
theorem fetchImplementationAbi_proxy_guard (respOk : Bool) (status : String)
    (nm proxyFlag : String) (abi : List AbiItem)
    (h : proxyFlag = "1" ∨ nm = "FiatTokenProxy") :
    fetchImplementationAbi respOk status
      (some (GetAbiPayload.sourceRecord nm proxyFlag abi)) = none := by
  simp only [fetchImplementationAbi]
  split
  · rcases h with rfl | rfl <;> simp
  · rfl

/-- C7 witness: a successful response carrying a record named
FiatTokenProxy yields null. -/
theorem fetchImplementationAbi_proxy_guard_witness :
    fetchImplementationAbi true "1"
      (some (GetAbiPayload.sourceRecord "FiatTokenProxy" "0" [])) = none :=
  fetchImplementationAbi_proxy_guard true "1" "FiatTokenProxy" "0" [] (Or.inr rfl)

/-- C8 counterexample: a record with no proxy flag, no implementation
field at all and an ABI without the two proxy functions still yields an
isProxy hint of true, because the code compares the implementation field
with the empty string by strict inequality and an absent field passes
that test; the claim says this record yields false. -/
theorem isProxyHint_counterexample :
    isProxyHint ⟨none, none⟩ [] = true ∧
    (⟨none, none⟩ : SourceRecord).proxyFlag ≠ some "1" ∧
    (⟨none, none⟩ : SourceRecord).implementation = none ∧
    hasProxyFunction [] = false := by
  refine ⟨by decide, by decide, rfl, by decide⟩

/-- C8 amended: the isProxy hint is true exactly when the proxy flag
field holds 1, or the implementation field is anything other than a
present empty string (so an absent field counts as a proxy indication),
or the parsed ABI has a function literally named implementation or
upgradeTo; a record whose implementation field is present and empty,
with no proxy flag and neither function, yields false. -/
theorem isProxyHint_characterization (record : SourceRecord) (abi : List AbiItem) :
    (isProxyHint record abi = true ↔
      record.proxyFlag = some "1" ∨ record.implementation ≠ some "" ∨
        hasProxyFunction abi = true) ∧
    isProxyHint ⟨none, some ""⟩ [] = false ∧
    isProxyHint ⟨some "1", some ""⟩ [] = true := by
  refine ⟨?_, by decide, by decide⟩
  simp [isProxyHint, Bool.or_eq_true, beq_iff_eq, Bool.not_eq_true, or_assoc]


/-- C8 amended witness: the characterization applied to the record with
an absent implementation field. -/
theorem isProxyHint_characterization_witness :
    isProxyHint ⟨none, none⟩ [] = true :=
  ((isProxyHint_characterization ⟨none, none⟩ []).1).mpr
    (Or.inr (Or.inl (by decide)))

/-- C9: a function is flagged dangerous exactly when its normalized name
(lowercased, underscores and whitespace stripped) equals one of the
fixed fragments or starts with one; transferOwnership, upgradeTo and
renounceOwnership are flagged, while isPaused, pauser and unpause are
not. -/
theorem isDangerousFunction_spec :
    (∀ name : String, isDangerousFunction name = specDangerous name) ∧
    isDangerousFunction "transferOwnership" = true ∧
    isDangerousFunction "upgradeTo" = true ∧
    isDangerousFunction "renounceOwnership" = true ∧
    isDangerousFunction "isPaused" = false ∧
    isDangerousFunction "pauser" = false ∧
    isDangerousFunction "unpause" = false := by
  refine ⟨?_, by decide, by decide, by decide, by decide, by decide, by decide⟩
  intro name
  have hiff : isDangerousFunction name = true ↔
      ∃ p ∈ DANGEROUS_PATTERNS,
        normalizeFnName name.data = p ∨ p <+: normalizeFnName name.data := by
    simp only [isDangerousFunction, List.any_eq_true]
    constructor
    · rintro ⟨p, hp, hcond⟩
      refine ⟨p, hp, ?_⟩
      by_cases h1 : (normalizeFnName name.data == p) = true
      · exact Or.inl (eq_of_beq h1)
      · rw [Bool.not_eq_true] at h1
        rw [if_neg (by simp [h1])] at hcond
        by_cases h2 : p.isPrefixOf (normalizeFnName name.data) = true
        · exact Or.inr (List.isPrefixOf_iff_prefix.mp h2)
        · rw [Bool.not_eq_true] at h2
          rw [if_neg (by simp [h2])] at hcond
          exact absurd hcond (by simp)
    · rintro ⟨p, hp, hcond⟩
      refine ⟨p, hp, ?_⟩
      rcases hcond with heq | hpre
      · rw [heq]
        simp
      · by_cases h1 : (normalizeFnName name.data == p) = true
        · simp [h1]
        · rw [Bool.not_eq_true] at h1
          rw [if_neg (by simp [h1])]
          have h2 : p.isPrefixOf (normalizeFnName name.data) = true :=
            List.isPrefixOf_iff_prefix.mpr hpre
          simp [h2]
  rw [specDangerous, Bool.eq_iff_iff, decide_eq_true_eq]
  exact hiff

/-- C9 witness: the theorem's concrete conjunct for transferOwnership. -/
theorem isDangerousFunction_spec_witness :
    isDangerousFunction "transferOwnership" = true :=
  isDangerousFunction_spec.2.1

/-- C10: every ParsedFunction the read-function parser produces carries
a danger flag of false, unconditionally; danger classification runs only
in the write-function parser, where the flag equals isDangerousFunction
of the entry's name. -/
theorem parseReadFunctions_never_dangerous (abi : List AbiItem) (f : ParsedFunction)
    (hf : f ∈ parseReadFunctions abi) :
    f.isDangerous = false ∧
    (∀ g ∈ parseWriteFunctions abi, g.isDangerous = isDangerousFunction g.func.name) := by
  constructor
  · simp only [parseReadFunctions, List.mem_map] at hf
    obtain ⟨g, _, rfl⟩ := hf
    rfl
  · intro g hg
    simp only [parseWriteFunctions, List.mem_map] at hg
    obtain ⟨h, _, rfl⟩ := hg
    rfl

/-- C10 witness: a view function named initialize, whose name matches a
dangerous fragment, is parsed with a danger flag of false. -/
theorem parseReadFunctions_never_dangerous_witness :
    (⟨⟨"function", "initialize", "view", []⟩, "initialize()", "initialize", false⟩ :
      ParsedFunction).isDangerous = false ∧
    isDangerousFunction "initialize" = true :=
  ⟨(parseReadFunctions_never_dangerous [⟨"function", "initialize", "view", []⟩]
      ⟨⟨"function", "initialize", "view", []⟩, "initialize()", "initialize", false⟩
      (by decide)).1,
   by decide⟩

end HumanWrite
